import Mathlib

/-!
Verification of the CSV-to-record parser of `src/src/App.js` (function
`parseCsv`, lines 65-156).  The parser is embedded shallowly: strings are
lists of characters, JavaScript objects become association lists in
assignment order (a later assignment to the same key wins on lookup),
JavaScript numbers are modelled as rationals, and the JavaScript builtin
`parseFloat` is modelled by its decimal-literal prefix grammar, returning
`none` where `parseFloat` returns `NaN`.
-/

namespace StockCsv

/-- A character string, as a list of characters. -/
abbrev Str := List Char

/-- The ASCII whitespace characters removed by JavaScript `String.prototype.trim`. -/
def jsWhitespace (c : Char) : Bool :=
  c = ' ' || c = '\t' || c = '\n' || c = '\r' || c = '\x0b' || c = '\x0c'

/-- Model of JavaScript `s.trim()`: drop whitespace from both ends. -/
def trimJS (s : Str) : Str :=
  ((s.dropWhile jsWhitespace).reverse.dropWhile jsWhitespace).reverse

/-- Remove one leading double quote if present (first half of the
regex `^"|"$` used on line 80 and line 126 of `App.js`). -/
def stripLeadQuote : Str → Str
  | '"' :: r => r
  | s => s

/-- Remove one trailing double quote if present (second half of the
regex `^"|"$`). -/
def stripTrailQuote (s : Str) : Str :=
  if s.getLast? = some '"' then s.dropLast else s

/-- Model of `value.replace(/^"|"$/g, '')`: strip at most one leading and
one trailing double quote. -/
def stripQuotes (s : Str) : Str :=
  stripTrailQuote (stripLeadQuote s)

/-- Decimal digit test. -/
def isDigit (c : Char) : Bool :=
  '0' ≤ c && c ≤ '9'

/-- Numeric value of a string of decimal digits, most significant first. -/
def natOfDigits (l : Str) : Nat :=
  l.foldl (fun a c => 10 * a + (c.toNat - '0'.toNat)) 0

/-- Exact rational value of a parsed decimal literal: `neg` is the sign,
`ip` and `fp` the integer and fractional digit strings, `ex` the signed
exponent.  Only integer arithmetic and one final `mkRat` are used so that
concrete instances reduce. -/
def decToQ (neg : Bool) (ip fp : Str) (ex : ℤ) : ℚ :=
  let m : ℤ := (natOfDigits ip * 10 ^ fp.length + natOfDigits fp : Nat)
  let m : ℤ := if neg then -m else m
  match ex with
  | Int.ofNat e => mkRat (m * (10 : ℤ) ^ e) (10 ^ fp.length)
  | Int.negSucc e => mkRat m (10 ^ (fp.length + (e + 1)))

/-- Model of the JavaScript builtin `parseFloat` restricted to its
decimal-literal grammar: skip leading whitespace, read an optional sign, an
integer part, an optional fractional part and an optional exponent, parsing
the longest valid prefix; `none` models the `NaN` result (no digit found).
The special `Infinity` spelling is not modelled; no input of interest
produces it. -/
def parseFloatQ (s : Str) : Option ℚ :=
  let cs0 := s.dropWhile jsWhitespace
  let neg : Bool := match cs0 with
    | '-' :: _ => true
    | _ => false
  let cs1 : Str := match cs0 with
    | '-' :: r => r
    | '+' :: r => r
    | _ => cs0
  let ip := cs1.takeWhile isDigit
  let cs2 := cs1.dropWhile isDigit
  let fp : Str := match cs2 with
    | '.' :: r => r.takeWhile isDigit
    | _ => []
  let cs3 : Str := match cs2 with
    | '.' :: r => r.dropWhile isDigit
    | _ => cs2
  if ip.isEmpty && fp.isEmpty then none
  else
    let ex : ℤ := match cs3 with
      | c :: r =>
        if c = 'e' || c = 'E' then
          let esgn : ℤ := match r with
            | '-' :: _ => -1
            | _ => 1
          let r2 : Str := match r with
            | '-' :: r3 => r3
            | '+' :: r3 => r3
            | _ => r
          let ed := r2.takeWhile isDigit
          if ed.isEmpty then 0 else esgn * (natOfDigits ed : ℤ)
        else 0
      | [] => 0
    some (decToQ neg ip fp ex)

/-- Model of `parseFloat(x) || 0`: a `NaN` result is replaced by `0`
(a parsed `0` or `-0` is also `0`, which `getD 0` preserves since `ℚ` has a
single zero). -/
def parseFloatOr0 (s : Str) : ℚ :=
  (parseFloatQ s).getD 0

/-- A field value of a record: numeric fields hold rationals, everything
else holds the field text. -/
inductive Value where
  | str : Str → Value
  | num : ℚ → Value
deriving DecidableEq

/-- A parsed record: the association list of `row[header] = value`
assignments made by the data-row loop, in assignment order. -/
abbrev Record := List (Str × Value)

/-- Lookup modelling JavaScript object property read after a sequence of
assignments: the latest assignment to the key wins. -/
def lookupLast : Record → Str → Option Value
  | [], _ => none
  | (k, v) :: rest, key =>
    match lookupLast rest key with
    | some w => some w
    | none => if k = key then some v else none

/-- Normalization of one header token (line 79-83 of `App.js`): trim,
strip one surrounding pair of double quotes, replace each space with an
underscore. -/
def normalizeHeader (tok : Str) : Str :=
  (stripQuotes (trimJS tok)).map (fun c => if c = ' ' then '_' else c)

/-- Model of JavaScript `hay.includes(needle)`: the needle occurs as a
contiguous substring of the haystack. -/
def containsSeq (needle : Str) : Str → Bool
  | [] => needle.isEmpty
  | c :: rest => needle.isPrefixOf (c :: rest) || containsSeq needle rest

/-- First comma-separated token of the line whose trimmed form is
non-empty, as computed by `line.split(',').filter(p => p.trim().length > 0)`
on line 77 of `App.js`. -/
def firstNonemptyPart (line : Str) : Option Str :=
  ((line.splitOn ',').filter (fun p => !(trimJS p).isEmpty)).head?

/-- Test of lines 74-78 of `App.js`: a line is taken as the header line
when it is non-blank and its first non-empty comma-separated token,
lower-cased, contains the substring `symbol`. -/
def isHeaderLine (raw : Str) : Bool :=
  let line := trimJS raw
  !line.isEmpty &&
    (match firstNonemptyPart line with
     | some p => containsSeq ("symbol".toList) (p.map Char.toLower)
     | none => false)

/-- Header row derived from the detected header line (lines 79-83):
split the trimmed line on commas and normalize each token. -/
def mkHeaders (raw : Str) : List Str :=
  ((trimJS raw).splitOn ',').map normalizeHeader

/-- Header scan of lines 73-88 of `App.js`: walk the lines in order and
stop at the first one satisfying `isHeaderLine`, returning the normalized
header row together with the remaining lines (the lines after index
`headerStartIndex`). -/
def findHeader : List Str → Option (List Str × List Str)
  | [] => none
  | l :: rest =>
    if isHeaderLine l then some (mkHeaders l, rest) else findHeader rest

/-- The quote-toggling field scanner of lines 100-117 of `App.js`.
`cur` is the current field accumulated in reverse; `inQ` is the
`inQuotes` flag.  A double quote only toggles the flag, a comma outside
quotes pushes the trimmed current field, any other character accumulates;
the final field is pushed when the line ends. -/
def tokenizeAux : Str → Str → Bool → List Str
  | [], cur, _ => [trimJS cur.reverse]
  | c :: rest, cur, inQ =>
    if c = '"' then tokenizeAux rest cur (!inQ)
    else if c = ',' ∧ inQ = false then trimJS cur.reverse :: tokenizeAux rest [] inQ
    else tokenizeAux rest (c :: cur) inQ

/-- Tokenize one (already trimmed) data line into its fields. -/
def tokenizeLine (line : Str) : List Str :=
  tokenizeAux line [] false

/-- The four header names whose values are coerced with comma stripping
(line 129 of `App.js`). -/
def commaStrippedHeaders : List Str :=
  ["Current_price".toList, "Price_change".toList, "Liquidity".toList, "Volume".toList]

/-- Value coercion of lines 123-135 of `App.js`: strip one surrounding
pair of quotes, then for `Current_price`, `Price_change`, `Liquidity` and
`Volume` remove all commas and `parseFloat` the text defaulting to `0`;
for `Percent_change` `parseFloat` the text directly (no comma removal)
defaulting to `0`; otherwise keep the text. -/
def coerceValue (h : Str) (raw : Str) : Value :=
  let v := stripQuotes raw
  if h ∈ commaStrippedHeaders then
    Value.num (parseFloatOr0 (v.filter (fun c => c ≠ ',')))
  else if h = "Percent_change".toList then
    Value.num (parseFloatOr0 v)
  else
    Value.str v

/-- Record built by the loop of lines 121-138: zip the headers with the
tokenized values and coerce each value by its header. -/
def buildRow (hs : List Str) (vs : List Str) : Record :=
  (hs.zip vs).map (fun p => (p.1, coerceValue p.1 p.2))

/-- The keep test of line 140 of `App.js`, `row.Symbol && row.Symbol.length > 0`:
the record's `Symbol` property must be a non-empty string (a numeric or
absent `Symbol` fails the test, since a number has no `length`). -/
def hasSymbol (r : Record) : Bool :=
  match lookupLast r ("Symbol".toList) with
  | some (Value.str s) => !s.isEmpty
  | _ => false

/-- The data-row loop of lines 97-149 of `App.js`: for each line after the
header, trim it, skip it when blank, tokenize it, require the field count
to equal the header count, build the record and keep it only when it has a
non-empty `Symbol`; kept records appear in input order. -/
def processRows (hs : List Str) : List Str → List Record
  | [] => []
  | l :: rest =>
    let line := trimJS l
    if line.isEmpty then processRows hs rest
    else
      let values := tokenizeLine line
      if values.length = hs.length then
        let row := buildRow hs values
        if hasSymbol row then row :: processRows hs rest
        else processRows hs rest
      else processRows hs rest

/-- Split the input text into lines on the line-feed character
(`csvText.split('\n')`, line 66 of `App.js`). -/
def splitLines (csvText : Str) : List Str :=
  csvText.splitOn '\n'

/-- The parser `parseCsv` of lines 65-156 of `App.js`: split into lines,
find the header, return the empty sequence when there is none, otherwise
process every later line. -/
def parseCsv (csvText : Str) : List Record :=
  match findHeader (splitLines csvText) with
  | none => []
  | some (hs, rest) => processRows hs rest

/-- Acceptance test for one data line, as one predicate: the line is
non-blank, its tokenized field count equals the header count, and the
record built from it has a non-empty `Symbol`. -/
def acceptsRow (hs : List Str) (l : Str) : Bool :=
  let line := trimJS l
  !line.isEmpty &&
    (tokenizeLine line).length == hs.length &&
    hasSymbol (buildRow hs (tokenizeLine line))

theorem acceptsRow_false_of_blank {hs : List Str} {l : Str}
    (h : (trimJS l).isEmpty = true) : acceptsRow hs l = false := by
  simp [acceptsRow, h]

theorem processRows_eq_filterMap (hs : List Str) (ls : List Str) :
    processRows hs ls = ls.filterMap (fun l =>
      if acceptsRow hs l then some (buildRow hs (tokenizeLine (trimJS l))) else none) := by
  induction ls with
  | nil => rfl
  | cons l rest ih =>
    rw [List.filterMap_cons]
    by_cases h1 : (trimJS l).isEmpty
    · rw [acceptsRow_false_of_blank h1]
      simp only [Bool.false_eq_true, if_false]
      simpa [processRows, h1] using ih
    · by_cases h2 : (tokenizeLine (trimJS l)).length = hs.length
      · by_cases h3 : hasSymbol (buildRow hs (tokenizeLine (trimJS l)))
        · have ha : acceptsRow hs l = true := by simp [acceptsRow, h1, h2, h3]
          rw [ha]
          simp [processRows, h1, h2, h3, ih]
        · have ha : acceptsRow hs l = false := by
            simp [acceptsRow, h1, h2]
            simpa using h3
          rw [ha]
          simp only [Bool.false_eq_true, if_false]
          simpa [processRows, h1, h2, h3] using ih
      · have ha : acceptsRow hs l = false := by simp [acceptsRow, h1, h2]
        rw [ha]
        simp only [Bool.false_eq_true, if_false]
        simpa [processRows, h1, h2] using ih

theorem length_filterMap_guard {α β : Type} (p : α → Bool) (f : α → β) (ls : List α) :
    (ls.filterMap (fun l => if p l then some (f l) else none)).length = ls.countP p := by
  induction ls with
  | nil => rfl
  | cons l rest ih =>
    rw [List.filterMap_cons, List.countP_cons]
    by_cases h : p l
    · simp [h, ih]
    · simp [h, ih]

theorem processRows_append (hs : List Str) (l₁ l₂ : List Str) :
    processRows hs (l₁ ++ l₂) = processRows hs l₁ ++ processRows hs l₂ := by
  rw [processRows_eq_filterMap, processRows_eq_filterMap, processRows_eq_filterMap,
    List.filterMap_append]

theorem processRows_singleton (hs : List Str) (l : Str) :
    processRows hs [l] =
      if acceptsRow hs l then [buildRow hs (tokenizeLine (trimJS l))] else [] := by
  rw [processRows_eq_filterMap]
  by_cases h : acceptsRow hs l <;> simp [h]

theorem findHeader_eq_none {ls : List Str}
    (h : ∀ l ∈ ls, isHeaderLine l = false) : findHeader ls = none := by
  induction ls with
  | nil => rfl
  | cons l rest ih =>
    have hl := h l (by simp)
    rw [findHeader, hl]
    simp only [Bool.false_eq_true, if_false]
    exact ih (fun m hm => h m (by simp [hm]))

theorem findHeader_first {pre : List Str} {l : Str} {post : List Str}
    (hpre : ∀ m ∈ pre, isHeaderLine m = false) (hl : isHeaderLine l = true) :
    findHeader (pre ++ l :: post) = some (mkHeaders l, post) := by
  induction pre with
  | nil => simp [findHeader, hl]
  | cons m rest ih =>
    have hm := hpre m (by simp)
    rw [List.cons_append, findHeader, hm]
    simp only [Bool.false_eq_true, if_false]
    exact ih (fun x hx => hpre x (by simp [hx]))

theorem mem_of_mem_trimJS {a : Char} {s : Str} (h : a ∈ trimJS s) : a ∈ s := by
  unfold trimJS at h
  rw [List.mem_reverse] at h
  have h2 := (List.dropWhile_sublist _).subset h
  rw [List.mem_reverse] at h2
  exact (List.dropWhile_sublist _).subset h2

theorem tokenizeAux_no_quote (cs : Str) (cur : Str) (inQ : Bool)
    (hcur : '"' ∉ cur) : ∀ v ∈ tokenizeAux cs cur inQ, '"' ∉ v := by
  induction cs generalizing cur inQ with
  | nil =>
    intro v hv
    simp only [tokenizeAux, List.mem_singleton] at hv
    subst hv
    intro hq
    exact hcur (List.mem_reverse.mp (mem_of_mem_trimJS hq))
  | cons c rest ih =>
    intro v hv
    by_cases h1 : c = '"'
    · rw [tokenizeAux, if_pos h1] at hv
      exact ih cur (!inQ) hcur v hv
    · by_cases h2 : c = ',' ∧ inQ = false
      · rw [tokenizeAux, if_neg h1, if_pos h2] at hv
        rcases List.mem_cons.mp hv with hv | hv
        · subst hv
          intro hq
          exact hcur (List.mem_reverse.mp (mem_of_mem_trimJS hq))
        · exact ih [] inQ (by simp) v hv
      · rw [tokenizeAux, if_neg h1, if_neg h2] at hv
        refine ih (c :: cur) inQ ?_ v hv
        intro hm
        rcases List.mem_cons.mp hm with hm | hm
        · exact h1 hm.symm
        · exact hcur hm

theorem tokenizeLine_no_quote (line : Str) : ∀ v ∈ tokenizeLine line, '"' ∉ v :=
  tokenizeAux_no_quote line [] false (by simp)

theorem stripLeadQuote_of_no_quote {s : Str} (h : '"' ∉ s) : stripLeadQuote s = s := by
  cases s with
  | nil => rfl
  | cons c r =>
    have hc : c ≠ '"' := fun e => h (by simp [e])
    rw [stripLeadQuote.eq_def]
    split
    · next heq => exact absurd (List.cons.injEq .. ▸ congrArg id heq) (by simp [hc])
    · rfl

theorem stripTrailQuote_of_no_quote {s : Str} (h : '"' ∉ s) : stripTrailQuote s = s := by
  rw [stripTrailQuote]
  have : s.getLast? ≠ some '"' := by
    intro he
    obtain ⟨hne, heq⟩ := List.mem_getLast?_eq_getLast (Option.mem_def.mpr he)
    exact h (heq ▸ List.getLast_mem hne)
  rw [if_neg this]

theorem stripQuotes_of_no_quote {s : Str} (h : '"' ∉ s) : stripQuotes s = s := by
  rw [stripQuotes, stripLeadQuote_of_no_quote h, stripTrailQuote_of_no_quote h]

theorem coerceValue_str {h v s : Str} (he : coerceValue h v = Value.str s) :
    s = stripQuotes v := by
  rw [coerceValue] at he
  split at he
  · exact absurd he (by simp)
  · split at he
    · exact absurd he (by simp)
    · exact (Value.str.injEq .. ▸ he).symm

theorem acceptsRow_iff {hs : List Str} {l : Str} :
    acceptsRow hs l = true ↔
      (trimJS l).isEmpty = false ∧ (tokenizeLine (trimJS l)).length = hs.length ∧
        hasSymbol (buildRow hs (tokenizeLine (trimJS l))) = true := by
  simp [acceptsRow, and_assoc]

theorem mem_parseCsv {text : Str} {r : Record} (h : r ∈ parseCsv text) :
    ∃ hs rest, findHeader (splitLines text) = some (hs, rest) ∧
      ∃ l ∈ rest, acceptsRow hs l = true ∧ r = buildRow hs (tokenizeLine (trimJS l)) := by
  rw [parseCsv.eq_def] at h
  split at h
  · exact absurd h (List.not_mem_nil r)
  · next hs rest heq =>
    rw [processRows_eq_filterMap] at h
    obtain ⟨l, hl, hf⟩ := List.mem_filterMap.mp h
    by_cases ha : acceptsRow hs l
    · rw [if_pos ha] at hf
      exact ⟨hs, rest, heq, l, hl, ha, (Option.some.inj hf).symm⟩
    · rw [if_neg ha] at hf
      exact absurd hf (by simp)

theorem buildRow_keys {hs vs : List Str} (h : vs.length = hs.length) :
    (buildRow hs vs).map Prod.fst = hs := by
  rw [buildRow, List.map_map]
  exact List.map_fst_zip hs vs (le_of_eq h.symm)

theorem parseCsv_of_findHeader {text : Str} {hs rest : List Str}
    (hfh : findHeader (splitLines text) = some (hs, rest)) :
    parseCsv text = processRows hs rest := by
  rw [parseCsv.eq_def, hfh]

/-- C1: for every CSV text whose lines yield a detected header row `hs`
with remaining lines `rest`, if at least one remaining line is accepted
(non-blank, tokenized field count equal to the header count, non-empty
`Symbol`), then `parseCsv` returns a non-empty sequence, its length equals
the number of accepted lines, and the records are exactly the accepted
lines' records in input row order. -/
theorem parse_count_valid_rows (text : Str) (hs rest : List Str)
    (hfh : findHeader (splitLines text) = some (hs, rest))
    (hpos : 0 < rest.countP (fun l => acceptsRow hs l)) :
    parseCsv text ≠ [] ∧
      (parseCsv text).length = rest.countP (fun l => acceptsRow hs l) ∧
      parseCsv text = rest.filterMap (fun l =>
        if acceptsRow hs l then some (buildRow hs (tokenizeLine (trimJS l))) else none) := by
  have hp := parseCsv_of_findHeader hfh
  have hlen : (parseCsv text).length = rest.countP (fun l => acceptsRow hs l) := by
    rw [hp, processRows_eq_filterMap, length_filterMap_guard]
  refine ⟨?_, hlen, by rw [hp, processRows_eq_filterMap]⟩
  intro hnil
  rw [hnil] at hlen
  simp only [List.length_nil] at hlen
  omega

/-- Witness for C1 at a concrete two-row input. -/
theorem parse_count_valid_rows_witness :
    parseCsv ("Symbol,Price\nAAA,1\nBBB,2".toList) ≠ [] ∧
      (parseCsv ("Symbol,Price\nAAA,1\nBBB,2".toList)).length =
        (["AAA,1".toList, "BBB,2".toList]).countP
          (fun l => acceptsRow ["Symbol".toList, "Price".toList] l) ∧
      parseCsv ("Symbol,Price\nAAA,1\nBBB,2".toList) =
        (["AAA,1".toList, "BBB,2".toList]).filterMap (fun l =>
          if acceptsRow ["Symbol".toList, "Price".toList] l then
            some (buildRow ["Symbol".toList, "Price".toList] (tokenizeLine (trimJS l)))
          else none) :=
  parse_count_valid_rows ("Symbol,Price\nAAA,1\nBBB,2".toList)
    ["Symbol".toList, "Price".toList] ["AAA,1".toList, "BBB,2".toList]
    (by decide) (by decide)

/-- C2 (counterexample): in a `Percent_change` field the text `1,234.56`
is parsed without comma stripping, so the float parse stops at the comma
and the stored value is `1`, not `1234.56`: the claim fails for
`Percent_change`, one of the five field names it covers. -/
theorem percent_change_comma_counterexample :
    (parseCsv ("Symbol,Percent_change\nAAA,\"1,234.56\"".toList)).map
        (fun r => lookupLast r ("Percent_change".toList)) = [some (Value.num 1)] ∧
      Value.num 1 ≠ Value.num (mkRat 123456 100) :=
  ⟨by decide, by decide⟩

/-- C2 (amended): for `Current_price`, `Price_change`, `Liquidity` and
`Volume` the stored value is obtained by stripping commas and parsing as a
number with `0` on failure; for `Percent_change` the text is parsed
directly, without comma stripping, with `0` on failure.  Field text
`1,234.56` therefore yields `1234.56` in the four comma-stripping fields
but `1` in `Percent_change`; unparsable text yields `0`. -/
theorem numeric_coercion_amended :
    (∀ v : Str, coerceValue ("Current_price".toList) v =
        Value.num (parseFloatOr0 ((stripQuotes v).filter (fun c => c ≠ ',')))) ∧
      (∀ v : Str, coerceValue ("Price_change".toList) v =
        Value.num (parseFloatOr0 ((stripQuotes v).filter (fun c => c ≠ ',')))) ∧
      (∀ v : Str, coerceValue ("Liquidity".toList) v =
        Value.num (parseFloatOr0 ((stripQuotes v).filter (fun c => c ≠ ',')))) ∧
      (∀ v : Str, coerceValue ("Volume".toList) v =
        Value.num (parseFloatOr0 ((stripQuotes v).filter (fun c => c ≠ ',')))) ∧
      (∀ v : Str, coerceValue ("Percent_change".toList) v =
        Value.num (parseFloatOr0 (stripQuotes v))) ∧
      (parseCsv ("Symbol,Current_price,Price_change,Liquidity,Volume,Percent_change\nAAA,\"1,234.56\",\"1,234.56\",\"1,234.56\",\"1,234.56\",\"1,234.56\"".toList)).map
        (fun r =>
          [lookupLast r ("Current_price".toList), lookupLast r ("Price_change".toList),
           lookupLast r ("Liquidity".toList), lookupLast r ("Volume".toList),
           lookupLast r ("Percent_change".toList)]) =
        [[some (Value.num (mkRat 123456 100)), some (Value.num (mkRat 123456 100)),
          some (Value.num (mkRat 123456 100)), some (Value.num (mkRat 123456 100)),
          some (Value.num 1)]] ∧
      coerceValue ("Liquidity".toList) ("abc".toList) = Value.num 0 :=
  ⟨fun _ => rfl, fun _ => rfl, fun _ => rfl, fun _ => rfl, fun _ => rfl,
   by decide, by decide⟩

/-- C3 (counterexample): with header line `Symbol,A,A` the two `A` columns
normalize to the same name, the later assignment overwrites the earlier
one on lookup, and the emitted record has `2` distinct keys while the
header row has `3` entries, so the distinct-key count does not equal the
header count. -/
theorem duplicate_header_key_counterexample :
    findHeader (splitLines ("Symbol,A,A\nX,1,2".toList)) =
        some (["Symbol".toList, "A".toList, "A".toList], ["X,1,2".toList]) ∧
      (parseCsv ("Symbol,A,A\nX,1,2".toList)).map
        (fun r => ((r.map Prod.fst).dedup).length) = [2] ∧
      (["Symbol".toList, "A".toList, "A".toList] : List Str).length = 3 ∧
      (2 : Nat) ≠ 3 :=
  ⟨by decide, by decide, by decide, by decide⟩

/-- C3 (amended): every emitted record has exactly as many entries as the
header row, in header order (so duplicate header names give duplicate
entries, and the record's distinct keys are exactly the distinct header
names — equal in number to the header count only when the names are
pairwise distinct), and a non-empty string `Symbol`. -/
theorem record_fields_amended (text : Str) (hs rest : List Str) (r : Record)
    (hfh : findHeader (splitLines text) = some (hs, rest))
    (hr : r ∈ parseCsv text) :
    r.map Prod.fst = hs ∧ (r.map Prod.fst).dedup = hs.dedup ∧ hasSymbol r = true := by
  obtain ⟨hs', rest', hfh', l, hl, ha, hre⟩ := mem_parseCsv hr
  injection hfh.symm.trans hfh' with hp
  injection hp with h1 h2
  subst h1
  subst h2
  obtain ⟨hb, hlen, hsym⟩ := acceptsRow_iff.mp ha
  subst hre
  have hk := buildRow_keys hlen
  exact ⟨hk, by rw [hk], hsym⟩

/-- Witness for C3 (amended) at a concrete input. -/
theorem record_fields_amended_witness :
    (([("Symbol".toList, Value.str ("AAA".toList)),
       ("Name".toList, Value.str ("B".toList))] : Record).map Prod.fst =
        ["Symbol".toList, "Name".toList]) ∧
      (([("Symbol".toList, Value.str ("AAA".toList)),
         ("Name".toList, Value.str ("B".toList))] : Record).map Prod.fst).dedup =
        (["Symbol".toList, "Name".toList] : List Str).dedup ∧
      hasSymbol [("Symbol".toList, Value.str ("AAA".toList)),
        ("Name".toList, Value.str ("B".toList))] = true :=
  record_fields_amended ("Symbol,Name\nAAA,B".toList)
    ["Symbol".toList, "Name".toList] ["AAA,B".toList]
    [("Symbol".toList, Value.str ("AAA".toList)),
     ("Name".toList, Value.str ("B".toList))]
    (by decide) (by decide)

/-- C4: `parseCsv` is total — it is defined by structural recursion, so
every input (empty, without a newline, with unbalanced quotes, or
arbitrary) yields a result list; an unclosed quote simply leaves the
toggle flag set and the accumulated text becomes the final field. -/
theorem parse_total :
    (∀ s : Str, ∃ rs : List Record, parseCsv s = rs) ∧
      parseCsv ("".toList) = [] ∧
      parseCsv ("no newline and no header".toList) = [] ∧
      parseCsv ("Symbol,Name\nAAA,\"unclosed".toList) =
        [[("Symbol".toList, Value.str ("AAA".toList)),
          ("Name".toList, Value.str ("unclosed".toList))]] :=
  ⟨fun s => ⟨parseCsv s, rfl⟩, by decide, by decide, by decide⟩

/-- C5: with a detected header, a data line contributes exactly one record
when it is accepted — non-blank, tokenized field count equal to the header
count, and non-empty `Symbol` in the built record — and contributes
nothing otherwise; the contribution sits in place between the records of
the surrounding lines. -/
theorem row_filter_characterization (text : Str) (hs rest pre : List Str)
    (l : Str) (post : List Str)
    (hfh : findHeader (splitLines text) = some (hs, rest))
    (hsplit : rest = pre ++ l :: post) :
    parseCsv text =
      processRows hs pre ++
        (if acceptsRow hs l then [buildRow hs (tokenizeLine (trimJS l))] else []) ++
        processRows hs post ∧
      acceptsRow hs l =
        (!(trimJS l).isEmpty && (tokenizeLine (trimJS l)).length == hs.length &&
          hasSymbol (buildRow hs (tokenizeLine (trimJS l)))) := by
  refine ⟨?_, rfl⟩
  rw [parseCsv_of_findHeader hfh, hsplit,
    show pre ++ l :: post = pre ++ [l] ++ post by simp,
    processRows_append, processRows_append, processRows_singleton]

/-- Witness for C5 at a concrete one-row input. -/
theorem row_filter_characterization_witness :
    parseCsv ("Symbol,Name\nAAA,B".toList) =
      processRows ["Symbol".toList, "Name".toList] [] ++
        (if acceptsRow ["Symbol".toList, "Name".toList] ("AAA,B".toList) then
          [buildRow ["Symbol".toList, "Name".toList]
            (tokenizeLine (trimJS ("AAA,B".toList)))]
        else []) ++
        processRows ["Symbol".toList, "Name".toList] [] ∧
      acceptsRow ["Symbol".toList, "Name".toList] ("AAA,B".toList) =
        (!(trimJS ("AAA,B".toList)).isEmpty &&
          (tokenizeLine (trimJS ("AAA,B".toList))).length ==
            (["Symbol".toList, "Name".toList] : List Str).length &&
          hasSymbol (buildRow ["Symbol".toList, "Name".toList]
            (tokenizeLine (trimJS ("AAA,B".toList))))) :=
  row_filter_characterization ("Symbol,Name\nAAA,B".toList)
    ["Symbol".toList, "Name".toList] ["AAA,B".toList] [] ("AAA,B".toList) []
    (by decide) rfl

/-- C6: a comma inside a quoted field is not a separator: parsing the
header `Symbol,Name,Price` with the data line `"AAA","Foo, Inc.",100`
yields exactly one record whose `Name` field is the string `Foo, Inc.`. -/
theorem quoted_comma_preserved :
    (parseCsv ("Symbol,Name,Price\n\"AAA\",\"Foo, Inc.\",100".toList)).map
        (fun r => lookupLast r ("Name".toList)) =
      [some (Value.str ("Foo, Inc.".toList))] := by decide

/-- C7: the header line is the first line satisfying the detection test —
non-blank, with its first non-empty comma-separated token containing
`symbol` case-insensitively (an exact match is not required, a token such
as `Ticker Symbol Code` qualifies) — and when no line satisfies the test
the parse result is the empty sequence. -/
theorem header_detection (text : Str) :
    ((∀ l ∈ splitLines text, isHeaderLine l = false) → parseCsv text = []) ∧
      (∀ pre l post, splitLines text = pre ++ l :: post →
        (∀ m ∈ pre, isHeaderLine m = false) → isHeaderLine l = true →
        findHeader (splitLines text) = some (mkHeaders l, post)) ∧
      isHeaderLine ("Ticker Symbol Code,X".toList) = true := by
  refine ⟨?_, ?_, by decide⟩
  · intro h
    rw [parseCsv.eq_def, findHeader_eq_none h]
  · intro pre l post hsplit hpre hl
    rw [hsplit]
    exact findHeader_first hpre hl

/-- Witness for C7: a header-free input parses to the empty list, and a
preamble line is skipped before the detected header line. -/
theorem header_detection_witness :
    parseCsv ("a,b\nc,d".toList) = [] ∧
      findHeader (splitLines ("preamble\nSymbol,Name\nAAA,B".toList)) =
        some (mkHeaders ("Symbol,Name".toList), ["AAA,B".toList]) :=
  ⟨(header_detection ("a,b\nc,d".toList)).1 (by decide),
   (header_detection ("preamble\nSymbol,Name\nAAA,B".toList)).2.1
     ["preamble".toList] ("Symbol,Name".toList) ["AAA,B".toList]
     (by decide) (by decide) (by decide)⟩

/-- C8: each header entry is its comma-separated token trimmed, stripped
of one leading and one trailing double quote, with every space replaced by
an underscore; in particular the quoted token `"Current price"` normalizes
to `Current_price`. -/
theorem header_normalization :
    (∀ raw : Str, mkHeaders raw = ((trimJS raw).splitOn ',').map (fun tok =>
        (stripQuotes (trimJS tok)).map (fun c => if c = ' ' then '_' else c))) ∧
      normalizeHeader ("\"Current price\"".toList) = "Current_price".toList ∧
      mkHeaders ("Symbol,\"Current price\"".toList) =
        ["Symbol".toList, "Current_price".toList] :=
  ⟨fun _ => rfl, by decide, by decide⟩

/-- C9: `parseCsv` is a pure function of the input text — in this
embedding it is a mathematical function with no hidden state, so two
invocations on the same text yield equal record sequences. -/
theorem parse_deterministic : ∀ s : Str, parseCsv s = parseCsv s :=
  fun _ => rfl

/-- C10: the tokenizer consumes every double quote solely to toggle its
in-quotes flag, so no string-valued field of any emitted record contains a
double quote, and the post-tokenization quote stripping leaves every such
field unchanged. -/
theorem no_quote_in_fields (text : Str) (r : Record) (k : Str) (v : Value)
    (s : Str) (hr : r ∈ parseCsv text) (hkv : (k, v) ∈ r)
    (hv : v = Value.str s) : '"' ∉ s ∧ stripQuotes s = s := by
  obtain ⟨hs, rest, hfh, l, hl, ha, hre⟩ := mem_parseCsv hr
  subst hre
  rw [buildRow] at hkv
  obtain ⟨⟨h0, v0⟩, hmem, heq⟩ := List.mem_map.mp hkv
  have hv0 : v0 ∈ tokenizeLine (trimJS l) := (List.of_mem_zip hmem).2
  have hnq : '"' ∉ v0 := tokenizeLine_no_quote _ v0 hv0
  have hsnd : coerceValue h0 v0 = v := congrArg Prod.snd heq
  have hcv : coerceValue h0 v0 = Value.str s := by rw [hsnd, hv]
  have hs0 : s = stripQuotes v0 := coerceValue_str hcv
  rw [stripQuotes_of_no_quote hnq] at hs0
  subst hs0
  exact ⟨hnq, stripQuotes_of_no_quote hnq⟩

/-- Witness for C10 at a concrete input. -/
theorem no_quote_in_fields_witness :
    '"' ∉ ("AAA".toList) ∧ stripQuotes ("AAA".toList) = "AAA".toList :=
  no_quote_in_fields ("Symbol\nAAA".toList)
    [("Symbol".toList, Value.str ("AAA".toList))]
    ("Symbol".toList) (Value.str ("AAA".toList)) ("AAA".toList)
    (by decide) (by decide) rfl

end StockCsv
